import Mathlib

/-!
Shallow embedding of `src/index.ts` (the presence/topic-tracking variant of
the PZDiscordEventPublisher bridge): pure string helpers, the `splitMessage`
chunker, the `parsePlayerCount` parser (including a direct model of the
regular expression `/Players?\s+connected\s*\((\d+)\)/i`), and the
`pollOnce` cycle controller as a state-and-trace transformer over an
environment that fixes the outcome of every external call (RCON
connect/send, Discord presence, topic and channel-send operations).

Strings are modelled as `List Char` (JS UTF-16 units as Lean `Char`s);
fallible external calls return `Except (List Char) α`, the `List Char`
being the rendered message of the thrown value (`err.toString()`).
-/

/-- ECMAScript whitespace: the class matched by `\s` in a non-unicode-flag
regex and the set stripped by `String.prototype.trim` — tab, LF, VT, FF,
CR, space, NBSP, Ogham space mark, the U+2000..U+200A spaces, LS, PS,
NNBSP, MMSP, ideographic space and BOM. -/
def jsWhitespace : List Char :=
  ['\t', '\n', '\x0B', '\x0C', '\r', ' ', '\u00A0', '\u1680',
   '\u2000', '\u2001', '\u2002', '\u2003', '\u2004', '\u2005', '\u2006',
   '\u2007', '\u2008', '\u2009', '\u200A', '\u2028', '\u2029', '\u202F',
   '\u205F', '\u3000', '\uFEFF']

/-- JS whitespace class `\s` (also used by the model of `trim`). -/
def isJsWs (c : Char) : Bool := jsWhitespace.contains c

/-- JS digit class `\d`. -/
def isDigitChar (c : Char) : Bool := '0' ≤ c && c ≤ '9'

/-- `String.prototype.trim`: strip leading and trailing whitespace. -/
def trimChars (cs : List Char) : List Char :=
  ((cs.dropWhile isJsWs).reverse.dropWhile isJsWs).reverse

/-- `String.prototype.toLowerCase` (ASCII case folding, as exercised by the
source's comparisons). -/
def lowerChars (cs : List Char) : List Char := cs.map Char.toLower

/-- Loop of `splitMessage` from the source:
`while (start < content.length) do end := min (start + maxLen) len;
chunks.push(content.slice(start, end)); start := end`.  The remaining input
models `content.slice(start)`; the fuel bounds the number of iterations
(for `maxLen ≥ 1` each iteration consumes at least one character, so
`content.length` iterations always suffice). -/
def splitMessageGo : Nat → List Char → Nat → List (List Char)
  | _, [], _ => []
  | 0, _ :: _, _ => []
  | fuel + 1, c :: cs, maxLen =>
      (c :: cs).take maxLen :: splitMessageGo fuel ((c :: cs).drop maxLen) maxLen

/-- `splitMessage(content, maxLen = 1900)` from the source.  For
`maxLen = 0` the source loop would not terminate, so the model returns `[]`
there; every claim about `splitMessage` assumes `maxLen > 0`. -/
def splitMessage (content : List Char) (maxLen : Nat) : List (List Char) :=
  if maxLen = 0 then [] else splitMessageGo content.length content maxLen

/-- The chunk-length profile of the `splitMessage` loop as a function of
the input length alone. -/
def chunkLens : Nat → Nat → Nat → List Nat
  | _, 0, _ => []
  | 0, _ + 1, _ => []
  | fuel + 1, n + 1, maxLen =>
      min maxLen (n + 1) :: chunkLens fuel (n + 1 - maxLen) maxLen

/-- `Number` applied to a capture consisting of decimal digits. -/
def digitsToNat (cs : List Char) : Nat :=
  cs.foldl (fun n c => 10 * n + (c.toNat - 48)) 0

/-- Decimal digits of `n`, most significant first; used to build the
concrete header texts that the parser claims quantify over. -/
def natDigitsAux (n : Nat) (acc : List Char) : List Char :=
  if h : n = 0 then acc
  else natDigitsAux (n / 10) (Nat.digitChar (n % 10) :: acc)
termination_by n
decreasing_by exact Nat.div_lt_self (Nat.pos_of_ne_zero h) (by decide)

/-- Decimal rendering of `n` as a digit list. -/
def natDigits (n : Nat) : List Char :=
  if n = 0 then ['0'] else natDigitsAux n []

/-- The literal `player` of the header pattern, lower case. -/
def playerLits : List Char := ['p', 'l', 'a', 'y', 'e', 'r']

/-- The literal `connected` of the header pattern, lower case. -/
def connectedLits : List Char := ['c', 'o', 'n', 'n', 'e', 'c', 't', 'e', 'd']

/-- Case-insensitive literal match: consume `lit` (given in lower case)
from the head of the input and return the rest. -/
def matchLit : List Char → List Char → Option (List Char)
  | [], rest => some rest
  | _ :: _, [] => none
  | a :: as, c :: cs => if c.toLower = a then matchLit as cs else none

/-- Tail of the header pattern after the literal `player` and the optional
`s`: `\s+connected\s*\((\d+)\)`, returning the captured count.  Each greedy
quantified class here is disjoint from the literal that follows it, so
maximal munch without backtracking is exact. -/
def matchAfterPlayer (cs : List Char) : Option Nat :=
  match cs with
  | [] => none
  | c :: rest =>
    if isJsWs c then
      match matchLit connectedLits (rest.dropWhile isJsWs) with
      | none => none
      | some r3 =>
        match r3.dropWhile isJsWs with
        | '(' :: r5 =>
          match r5 with
          | [] => none
          | d :: r6 =>
            if isDigitChar d then
              match r6.dropWhile isDigitChar with
              | ')' :: _ => some (digitsToNat (d :: r6.takeWhile isDigitChar))
              | _ => none
            else none
        | _ => none
    else none

/-- One attempt of `/Players?\s+connected\s*\((\d+)\)/i` anchored at the
head of the input.  The optional `s` is greedy: first try with the `s`
consumed, then without. -/
def matchHeaderAt (cs : List Char) : Option Nat :=
  match matchLit playerLits cs with
  | none => none
  | some r1 =>
    match r1 with
    | [] => none
    | c :: rest =>
      if c.toLower = 's' then
        match matchAfterPlayer rest with
        | some n => some n
        | none => matchAfterPlayer r1
      else matchAfterPlayer r1

/-- `text.match(re)`: scan for the leftmost position at which the header
pattern matches and return its capture. -/
def findHeaderCount : List Char → Option Nat
  | [] => none
  | c :: cs =>
    match matchHeaderAt (c :: cs) with
    | some n => some n
    | none => findHeaderCount cs

/-- `text.split(/\r?\n/)`: cut at each `'\n'`, absorbing an immediately
preceding `'\r'`; a `'\r'` not followed by `'\n'` stays inside its line.
The accumulator holds the current line, reversed. -/
def splitLinesAux : List Char → List Char → List (List Char)
  | [], acc => [acc.reverse]
  | '\r' :: '\n' :: rest, acc => acc.reverse :: splitLinesAux rest []
  | '\n' :: rest, acc => acc.reverse :: splitLinesAux rest []
  | c :: rest, acc => splitLinesAux rest (c :: acc)

/-- `String.prototype.startsWith`, on char lists. -/
def beginsWith : List Char → List Char → Bool
  | [], _ => true
  | _ :: _, [] => false
  | a :: as, b :: bs => a = b && beginsWith as bs

/-- `String.prototype.includes`, on char lists. -/
def containsSeq (pat : List Char) : List Char → Bool
  | [] => beginsWith pat []
  | c :: cs => beginsWith pat (c :: cs) || containsSeq pat cs

/-- `parsePlayerCount` from the source: first try the header pattern
`/Players?\s+connected\s*\((\d+)\)/i` anywhere in the text; otherwise
split into lines, trim each, drop the empty ones, exclude a first line
containing `"player"` (case-insensitively) and count what remains. -/
def parsePlayerCount (resp : List Char) : Nat :=
  match findHeaderCount resp with
  | some n => n
  | none =>
    match ((splitLinesAux resp []).map trimChars).filter
        (fun l => !l.isEmpty) with
    | [] => 0
    | first :: rest =>
      if containsSeq playerLits (lowerChars first) then rest.length
      else (first :: rest).length

/-- The lowered benign-fault signature the source compares against:
`err.toString().toLowerCase() == "error: connection closed"`. -/
def connectionClosedLower : List Char := "error: connection closed".toList

/-- Observable actions of one cycle, in order of occurrence. -/
inductive Event where
  | connectAttempt : Event
  | presenceAttempt : Nat → Event
  | topicWriteAttempt : Nat → Event
  | topicFailLog : Event
  | pollErrorLog : List Char → Event
  | benignLog : Event
  | commandSend : Event
  | emptyLog : Event
  | noChannelLog : Event
  | channelSend : List Char → Event
  | sleepMs : Nat → Event
  | rconEndAttempt : Event
  deriving DecidableEq, Repr

/-- The module-level mutable state of the bridge: whether the Target
Channel Handle has been resolved (`targetChannel`, its identity is
irrelevant to the cycle logic) and the Last-Published Count (`lastCount`,
initialised to the sentinel `-1`). -/
structure BotState where
  targetChannel : Bool
  lastCount : Int
  deriving DecidableEq, Repr

/-- Decidable equality for call outcomes, so that concrete cycle runs can
be checked by evaluation. -/
instance {ε α : Type} [DecidableEq ε] [DecidableEq α] :
    DecidableEq (Except ε α) := fun x y =>
  match x, y with
  | Except.ok a, Except.ok b => decidable_of_iff (a = b) (by simp)
  | Except.ok _, Except.error _ => isFalse (fun hc => Except.noConfusion hc)
  | Except.error _, Except.ok _ => isFalse (fun hc => Except.noConfusion hc)
  | Except.error a, Except.error b => decidable_of_iff (a = b) (by simp)

/-- Outcomes of the external calls one cycle can make.  Every fallible
call yields `Except (List Char) α`, the `List Char` being the rendered
message (`err.toString()`) of the thrown value. -/
structure Env where
  connect : Except (List Char) Unit
  sendPlayers : Except (List Char) (Option (List Char))
  presence : Nat → Except (List Char) Unit
  setTopicRes : Nat → Except (List Char) Unit
  sendCommand : Except (List Char) (Option (List Char))
  channelSendRes : Nat → Except (List Char) Unit
  rconEndRes : Except (List Char) Unit

/-- `updateChannelTopicIfChanged(count)` from the source: return if no
channel is resolved or the count equals `lastCount`; otherwise set
`lastCount := count` FIRST, then attempt the topic write (the channel is a
`TextChannel`, so the `"setTopic" in targetChannel` guard holds), logging
but swallowing a write failure.  It never throws. -/
def updateChannelTopicIfChanged (env : Env) (st : BotState) (count : Nat) :
    BotState × List Event :=
  if st.targetChannel = false then (st, [])
  else if (count : Int) = st.lastCount then (st, [])
  else
    let st' : BotState := ⟨st.targetChannel, (count : Int)⟩
    match env.setTopicRes count with
    | Except.ok _ => (st', [Event.topicWriteAttempt count])
    | Except.error _ => (st', [Event.topicWriteAttempt count, Event.topicFailLog])

/-- The `catch` of the player-count sub-query: a fault whose lowered
rendering is `"error: connection closed"` is treated as a paused server
(`setPresence(0)`; `updateChannelTopicIfChanged(0)` — the recovery
`setPresence` can itself throw, which escapes to the outer handler); any
other fault is only logged. -/
def innerCatch (env : Env) (st : BotState) (e : List Char) :
    Except (List Char) Unit × BotState × List Event :=
  if lowerChars e = connectionClosedLower then
    match env.presence 0 with
    | Except.error e2 => (Except.error e2, st, [Event.presenceAttempt 0])
    | Except.ok _ =>
      (Except.ok (), (updateChannelTopicIfChanged env st 0).1,
        Event.presenceAttempt 0 :: (updateChannelTopicIfChanged env st 0).2)
  else (Except.ok (), st, [Event.pollErrorLog e])

/-- Step 1 of the cycle body: `try` the `players` query, parse the count,
`setPresence(count)` and `updateChannelTopicIfChanged(count)`, with faults
diverted to `innerCatch`. -/
def playersPhase (env : Env) (st : BotState) :
    Except (List Char) Unit × BotState × List Event :=
  match env.sendPlayers with
  | Except.error e => innerCatch env st e
  | Except.ok resp =>
    match env.presence (parsePlayerCount (resp.getD [])) with
    | Except.error e =>
      ((innerCatch env st e).1, (innerCatch env st e).2.1,
        Event.presenceAttempt (parsePlayerCount (resp.getD [])) ::
          (innerCatch env st e).2.2)
    | Except.ok _ =>
      (Except.ok (),
        (updateChannelTopicIfChanged env st (parsePlayerCount (resp.getD []))).1,
        Event.presenceAttempt (parsePlayerCount (resp.getD [])) ::
          (updateChannelTopicIfChanged env st (parsePlayerCount (resp.getD []))).2)

/-- `for (const part of parts) await targetChannel.send(part)`: sequential
sends, a fault aborting the remainder and escaping to the outer handler. -/
def sendParts (env : Env) : Nat → List (List Char) →
    Except (List Char) Unit × List Event
  | _, [] => (Except.ok (), [])
  | idx, p :: rest =>
    match env.channelSendRes idx with
    | Except.error e => (Except.error e, [Event.channelSend p])
    | Except.ok _ =>
      ((sendParts env (idx + 1) rest).1,
        Event.channelSend p :: (sendParts env (idx + 1) rest).2)

/-- The `try` block of `pollOnce`: connect, run the players sub-query
phase, issue the primary event-retrieval command, and publish the trimmed
response in chunks; the `Except` layer carries any fault escaping the
block, alongside the state and trace accumulated before the fault. -/
def pollOnceBody (env : Env) (st : BotState) :
    Except (List Char) Unit × BotState × List Event :=
  match env.connect with
  | Except.error e => (Except.error e, st, [Event.connectAttempt])
  | Except.ok _ =>
    match (playersPhase env st).1 with
    | Except.error e =>
      (Except.error e, (playersPhase env st).2.1,
        Event.connectAttempt :: (playersPhase env st).2.2)
    | Except.ok _ =>
      match env.sendCommand with
      | Except.error e =>
        (Except.error e, (playersPhase env st).2.1,
          Event.connectAttempt :: (playersPhase env st).2.2 ++ [Event.commandSend])
      | Except.ok resp =>
        if (trimChars (resp.getD [])).isEmpty then
          (Except.ok (), (playersPhase env st).2.1,
            Event.connectAttempt :: (playersPhase env st).2.2 ++
              [Event.commandSend, Event.emptyLog])
        else if (playersPhase env st).2.1.targetChannel = false then
          (Except.ok (), (playersPhase env st).2.1,
            Event.connectAttempt :: (playersPhase env st).2.2 ++
              [Event.commandSend, Event.noChannelLog])
        else if (resp.getD []).isEmpty ||
            ((resp.getD []).filter (fun c => !isJsWs c)).isEmpty then
          (Except.ok (), (playersPhase env st).2.1,
            Event.connectAttempt :: (playersPhase env st).2.2 ++
              [Event.commandSend])
        else
          ((sendParts env 0 (splitMessage (trimChars (resp.getD [])) 1900)).1,
            (playersPhase env st).2.1,
            Event.connectAttempt :: (playersPhase env st).2.2 ++
              [Event.commandSend] ++
              (sendParts env 0 (splitMessage (trimChars (resp.getD [])) 1900)).2)

/-- The `finally` of `pollOnce`: `rcon?.end()` runs only when the connect
assignment completed, and its own failure is swallowed. -/
def finallyTrace (env : Env) : List Event :=
  match env.connect with
  | Except.ok _ => [Event.rconEndAttempt]
  | Except.error _ => []

/-- `pollOnce` from the source: the body above, whose escaping fault is
caught and classified — the benign `"error: connection closed"` rendering
is logged quietly, anything else as an error — followed in either case by
a 60000 ms cooldown sleep; then the `finally`.  The `Except` layer of the
result is what escapes to the caller. -/
def pollOnce (env : Env) (st : BotState) :
    Except (List Char) Unit × BotState × List Event :=
  match pollOnceBody env st with
  | (Except.ok _, st1, tr) => (Except.ok (), st1, tr ++ finallyTrace env)
  | (Except.error e, st1, tr) =>
    if lowerChars e = connectionClosedLower then
      (Except.ok (), st1,
        tr ++ [Event.benignLog, Event.sleepMs 60000] ++ finallyTrace env)
    else
      (Except.ok (), st1,
        tr ++ [Event.pollErrorLog e, Event.sleepMs 60000] ++ finallyTrace env)

/-- Predicate selecting topic-write attempts in a trace. -/
def isTopicWrite : Event → Bool
  | Event.topicWriteAttempt _ => true
  | _ => false

/-- Joins lines with `'\n'`, used to state the line-counting claims. -/
def joinLines : List (List Char) → List Char
  | [] => []
  | [l] => l
  | l :: l2 :: ls => l ++ '\n' :: joinLines (l2 :: ls)

/-- A cycle environment in which every external call succeeds. -/
def envAllOk : Env where
  connect := Except.ok ()
  sendPlayers := Except.ok (some "Players connected (2):\nAlice\nBob".toList)
  presence := fun _ => Except.ok ()
  setTopicRes := fun _ => Except.ok ()
  sendCommand := Except.ok (some "a player died".toList)
  channelSendRes := fun _ => Except.ok ()
  rconEndRes := Except.ok ()

/-- Environment whose topic write fails; everything else succeeds. -/
def envTopicFail : Env where
  connect := Except.ok ()
  sendPlayers := Except.ok (some "Players connected (3):".toList)
  presence := fun _ => Except.ok ()
  setTopicRes := fun _ => Except.error "DiscordAPIError".toList
  sendCommand := Except.ok (some "".toList)
  channelSendRes := fun _ => Except.ok ()
  rconEndRes := Except.ok ()

/-- Environment whose players sub-query fails with a generic
(non-"connection closed") fault; everything else succeeds. -/
def envPlayersBoom : Env where
  connect := Except.ok ()
  sendPlayers := Except.error "Error: read timeout".toList
  presence := fun _ => Except.ok ()
  setTopicRes := fun _ => Except.ok ()
  sendCommand := Except.ok (some "a player died".toList)
  channelSendRes := fun _ => Except.ok ()
  rconEndRes := Except.ok ()

/-- Environment whose connect attempt throws the benign
`Error: Connection closed` fault. -/
def envConnClosed : Env where
  connect := Except.error "Error: Connection closed".toList
  sendPlayers := Except.ok (some "".toList)
  presence := fun _ => Except.ok ()
  setTopicRes := fun _ => Except.ok ()
  sendCommand := Except.ok (some "".toList)
  channelSendRes := fun _ => Except.ok ()
  rconEndRes := Except.ok ()

/-- Environment whose players sub-query fails with the benign fault and
whose primary command returns a whitespace-only response. -/
def envQuiet : Env where
  connect := Except.ok ()
  sendPlayers := Except.error "Error: Connection closed".toList
  presence := fun _ => Except.ok ()
  setTopicRes := fun _ => Except.ok ()
  sendCommand := Except.ok (some "   \n  ".toList)
  channelSendRes := fun _ => Except.ok ()
  rconEndRes := Except.ok ()

lemma splitMessageGo_length (maxLen : Nat) (hM : 0 < maxLen) :
    ∀ fuel content, List.length content ≤ fuel →
      (splitMessageGo fuel content maxLen).length =
        (content.length + maxLen - 1) / maxLen := by
  intro fuel
  induction fuel with
  | zero =>
    intro content h
    match content with
    | [] =>
      simp [splitMessageGo, Nat.div_eq_of_lt (by omega : maxLen - 1 < maxLen)]
    | c :: cs => simp at h
  | succ fuel ih =>
    intro content h
    match content with
    | [] =>
      simp [splitMessageGo, Nat.div_eq_of_lt (by omega : maxLen - 1 < maxLen)]
    | c :: cs =>
      have hlen : (c :: cs).length = cs.length + 1 := by simp
      have hdrop : ((c :: cs).drop maxLen).length = cs.length + 1 - maxLen := by
        simp
      have hrec := ih ((c :: cs).drop maxLen) (by simp at h ⊢; omega)
      simp only [splitMessageGo, List.length_cons, hrec, hdrop]
      by_cases hle : cs.length + 1 ≤ maxLen
      · have h1 : cs.length + 1 - maxLen = 0 := by omega
        have h2 : cs.length + 1 + maxLen - 1 = cs.length + maxLen := by omega
        rw [h1, h2]
        have h3 : (maxLen - 1) / maxLen = 0 :=
          Nat.div_eq_of_lt (by omega)
        have h5 : (cs.length + maxLen) / maxLen = cs.length / maxLen + 1 :=
          Nat.add_div_right _ hM
        rw [Nat.zero_add, h3, h5,
          Nat.div_eq_of_lt (by omega : cs.length < maxLen)]
      · have h1 : cs.length + 1 - maxLen + maxLen - 1 = cs.length := by omega
        have h2 : cs.length + 1 + maxLen - 1 = cs.length + maxLen := by omega
        rw [h1, h2, Nat.add_div_right _ hM]

lemma splitMessageGo_chunk_le (maxLen : Nat) :
    ∀ fuel content, ∀ chunk ∈ splitMessageGo fuel content maxLen,
      chunk.length ≤ maxLen := by
  intro fuel
  induction fuel with
  | zero =>
    intro content chunk hc
    match content with
    | [] => simp [splitMessageGo] at hc
    | c :: cs => simp [splitMessageGo] at hc
  | succ fuel ih =>
    intro content chunk hc
    match content with
    | [] => simp [splitMessageGo] at hc
    | c :: cs =>
      simp only [splitMessageGo, List.mem_cons] at hc
      rcases hc with hc | hc
      · subst hc
        simp [List.length_take]
      · exact ih _ _ hc

lemma splitMessageGo_flatten (maxLen : Nat) (hM : 0 < maxLen) :
    ∀ fuel content, content.length ≤ fuel →
      (splitMessageGo fuel content maxLen).flatten = content := by
  intro fuel
  induction fuel with
  | zero =>
    intro content h
    match content with
    | [] => simp [splitMessageGo]
    | c :: cs => simp at h
  | succ fuel ih =>
    intro content h
    match content with
    | [] => simp [splitMessageGo]
    | c :: cs =>
      simp only [splitMessageGo, List.flatten_cons]
      rw [ih ((c :: cs).drop maxLen) (by simp at h ⊢; omega)]
      exact List.take_append_drop _ _

lemma splitMessageGo_map_length (maxLen : Nat) :
    ∀ fuel content, (splitMessageGo fuel content maxLen).map List.length =
      chunkLens fuel content.length maxLen := by
  intro fuel
  induction fuel with
  | zero =>
    intro content
    match content with
    | [] => simp [splitMessageGo, chunkLens]
    | c :: cs => simp [splitMessageGo, chunkLens]
  | succ fuel ih =>
    intro content
    match content with
    | [] => simp [splitMessageGo, chunkLens]
    | c :: cs =>
      simp only [splitMessageGo, List.map_cons, List.length_cons]
      rw [ih ((c :: cs).drop maxLen)]
      simp [chunkLens, List.length_take]

/-- C4: for every content and every chunk bound M > 0, `splitMessage`
returns exactly `⌈L/M⌉` chunks each of length at most M whose in-order
concatenation is the original string; in particular a 5000-character input
with M = 1900 yields three chunks of lengths 1900, 1900 and 1200. -/
theorem C4_splitMessage_chunking (content : List Char) (M : Nat) (hM : 0 < M) :
    (splitMessage content M).length = (content.length + M - 1) / M ∧
    (∀ chunk ∈ splitMessage content M, chunk.length ≤ M) ∧
    (splitMessage content M).flatten = content ∧
    (splitMessage (List.replicate 5000 'a') 1900).map List.length =
      [1900, 1900, 1200] := by
  have hM' : ¬M = 0 := by omega
  refine ⟨?_, ?_, ?_, ?_⟩
  · simp only [splitMessage, if_neg hM']
    exact splitMessageGo_length M hM content.length content (le_refl _)
  · simp only [splitMessage, if_neg hM']
    exact splitMessageGo_chunk_le M content.length content
  · simp only [splitMessage, if_neg hM']
    exact splitMessageGo_flatten M hM content.length content (le_refl _)
  · simp only [splitMessage, if_neg (by decide : ¬(1900 : Nat) = 0)]
    rw [splitMessageGo_map_length]
    simp only [List.length_replicate]
    decide

/-- Witness for C4 at content = "abcde", M = 2. -/
theorem C4_splitMessage_chunking_witness :
    0 < 2 ∧
    ((splitMessage "abcde".toList 2).length =
        ("abcde".toList.length + 2 - 1) / 2 ∧
      (∀ chunk ∈ splitMessage "abcde".toList 2, chunk.length ≤ 2) ∧
      (splitMessage "abcde".toList 2).flatten = "abcde".toList ∧
      (splitMessage (List.replicate 5000 'a') 1900).map List.length =
        [1900, 1900, 1200]) :=
  ⟨by decide, C4_splitMessage_chunking "abcde".toList 2 (by decide)⟩

/-- C1: whatever the outcome of the external calls of a cycle — connect
fault, send fault, publish fault or success — `pollOnce` returns normally
and propagates no exception to its caller. -/
theorem C1_pollOnce_never_throws (env : Env) (st : BotState) :
    (pollOnce env st).1 = Except.ok () := by
  unfold pollOnce
  rcases h : pollOnceBody env st with ⟨r, st1, tr⟩
  cases r with
  | ok u => rfl
  | error e =>
    by_cases hc : lowerChars e = connectionClosedLower
    · simp [hc]
    · simp [hc]

/-- C10: with the Target Channel Handle not yet resolved,
`updateChannelTopicIfChanged` returns immediately: no topic write is
performed and `lastCount` is left unchanged. -/
theorem C10_no_channel_noop (env : Env) (st : BotState) (count : Nat)
    (h : st.targetChannel = false) :
    updateChannelTopicIfChanged env st count = (st, []) := by
  simp [updateChannelTopicIfChanged, h]

/-- Witness for C10 with the initial state and count 5. -/
theorem C10_no_channel_noop_witness :
    ((⟨false, -1⟩ : BotState).targetChannel = false) ∧
      updateChannelTopicIfChanged envAllOk ⟨false, -1⟩ 5 = (⟨false, -1⟩, []) :=
  ⟨rfl, C10_no_channel_noop envAllOk ⟨false, -1⟩ 5 rfl⟩

/-- C8: invoking the topic updater twice in succession with the same count
performs at most one actual topic write, and the second invocation
performs none. -/
theorem C8_topic_update_at_most_one_write (env : Env) (st : BotState)
    (count : Nat) :
    ((updateChannelTopicIfChanged env
        (updateChannelTopicIfChanged env st count).1 count).2.filter
        isTopicWrite = []) ∧
    (((updateChannelTopicIfChanged env st count).2 ++
        (updateChannelTopicIfChanged env
          (updateChannelTopicIfChanged env st count).1 count).2).filter
        isTopicWrite).length ≤ 1 := by
  by_cases h1 : st.targetChannel = false
  · simp [updateChannelTopicIfChanged, h1]
  · by_cases h2 : (count : Int) = st.lastCount
    · simp [updateChannelTopicIfChanged, h1, h2]
    · rcases ht : env.setTopicRes count with e | u <;>
        simp [updateChannelTopicIfChanged, h1, h2, ht, isTopicWrite]

/-- C2 fails on the code: `updateChannelTopicIfChanged` assigns
`lastCount = count` BEFORE attempting the topic write, so a failed write
(witnessed by the failure log in the trace) still changes `lastCount` from
-1 to 3, and a subsequent invocation with the same count performs no
retry. -/
theorem C2_counterexample :
    envTopicFail.setTopicRes 3 = Except.error "DiscordAPIError".toList ∧
    Event.topicFailLog ∈
      (updateChannelTopicIfChanged envTopicFail ⟨true, -1⟩ 3).2 ∧
    ¬(updateChannelTopicIfChanged envTopicFail ⟨true, -1⟩ 3).1.lastCount =
      (⟨true, -1⟩ : BotState).lastCount ∧
    (updateChannelTopicIfChanged envTopicFail
      (updateChannelTopicIfChanged envTopicFail ⟨true, -1⟩ 3).1 3).2 = [] := by
  refine ⟨rfl, ?_, ?_, ?_⟩ <;> decide

/-- C2 amended: whenever the channel is resolved and the new count differs
from `lastCount`, the updater first sets `lastCount` to the new count and
then attempts the topic write — so `lastCount` is updated regardless of
whether the write succeeds (a failure is only logged), and a subsequent
invocation with the same count performs no write and hence no retry. -/
theorem C2_lastCount_updated_before_write (env : Env) (st : BotState)
    (count : Nat) (hch : st.targetChannel = true)
    (hne : ¬(count : Int) = st.lastCount) :
    (updateChannelTopicIfChanged env st count).1.lastCount = (count : Int) ∧
    Event.topicWriteAttempt count ∈
      (updateChannelTopicIfChanged env st count).2 ∧
    ((∃ msg, env.setTopicRes count = Except.error msg) →
      Event.topicFailLog ∈ (updateChannelTopicIfChanged env st count).2) ∧
    (updateChannelTopicIfChanged env
      (updateChannelTopicIfChanged env st count).1 count).2 = [] := by
  have h1 : ¬st.targetChannel = false := by simp [hch]
  rcases ht : env.setTopicRes count with e | u <;>
    simp [updateChannelTopicIfChanged, h1, hne, ht]

/-- Witness for the amended C2 at the failing-topic environment, count 3,
initial state. -/
theorem C2_lastCount_updated_before_write_witness :
    ((⟨true, -1⟩ : BotState).targetChannel = true) ∧
    ¬((3 : Nat) : Int) = (⟨true, -1⟩ : BotState).lastCount ∧
    ((updateChannelTopicIfChanged envTopicFail ⟨true, -1⟩ 3).1.lastCount =
        ((3 : Nat) : Int) ∧
      Event.topicWriteAttempt 3 ∈
        (updateChannelTopicIfChanged envTopicFail ⟨true, -1⟩ 3).2 ∧
      ((∃ msg, envTopicFail.setTopicRes 3 = Except.error msg) →
        Event.topicFailLog ∈
          (updateChannelTopicIfChanged envTopicFail ⟨true, -1⟩ 3).2) ∧
      (updateChannelTopicIfChanged envTopicFail
        (updateChannelTopicIfChanged envTopicFail ⟨true, -1⟩ 3).1 3).2 = []) :=
  ⟨rfl, by decide,
    C2_lastCount_updated_before_write envTopicFail ⟨true, -1⟩ 3 rfl (by decide)⟩

/-- C9: when the cycle body throws a fault rendered exactly
`Error: Connection closed`, `pollOnce` logs it at the quiet (benign) level
rather than as an error, sleeps exactly 60000 ms before returning, and
propagates no exception: its trace is the body's trace followed by the
benign log and the cooldown (and the `finally`), and its result is ok. -/
theorem C9_benign_connection_closed (env : Env) (st : BotState)
    (e : List Char) (hb : (pollOnceBody env st).1 = Except.error e)
    (he : e = "Error: Connection closed".toList) :
    (pollOnce env st).1 = Except.ok () ∧
    (pollOnce env st).2.2 = (pollOnceBody env st).2.2 ++
      [Event.benignLog, Event.sleepMs 60000] ++ finallyTrace env := by
  have hlow : lowerChars e = connectionClosedLower := by subst he; decide
  unfold pollOnce
  rcases hB : pollOnceBody env st with ⟨r, st1, tr⟩
  rw [hB] at hb
  simp only at hb
  subst hb
  simp [hlow]

/-- Witness for C9: the environment whose connect attempt throws the
benign fault. -/
theorem C9_benign_connection_closed_witness :
    (pollOnceBody envConnClosed ⟨true, -1⟩).1 =
      Except.error "Error: Connection closed".toList ∧
    "Error: Connection closed".toList = "Error: Connection closed".toList ∧
    ((pollOnce envConnClosed ⟨true, -1⟩).1 = Except.ok () ∧
      (pollOnce envConnClosed ⟨true, -1⟩).2.2 =
        (pollOnceBody envConnClosed ⟨true, -1⟩).2.2 ++
          [Event.benignLog, Event.sleepMs 60000] ++ finallyTrace envConnClosed) :=
  ⟨by decide, rfl,
    C9_benign_connection_closed envConnClosed ⟨true, -1⟩ _ (by decide) rfl⟩

lemma updateTopic_trace_cases (env : Env) (st : BotState) (c : Nat) :
    (updateChannelTopicIfChanged env st c).2 = [] ∨
    (updateChannelTopicIfChanged env st c).2 = [Event.topicWriteAttempt c] ∨
    (updateChannelTopicIfChanged env st c).2 =
      [Event.topicWriteAttempt c, Event.topicFailLog] := by
  unfold updateChannelTopicIfChanged
  by_cases h1 : st.targetChannel = false
  · simp [h1]
  · by_cases h2 : (c : Int) = st.lastCount
    · simp [h1, h2]
    · rcases ht : env.setTopicRes c with e | u <;> simp [h1, h2, ht]

lemma updateTopic_write_mem (env : Env) (st : BotState) (c : Nat)
    (hch : st.targetChannel = true) (hne : ¬(c : Int) = st.lastCount) :
    Event.topicWriteAttempt c ∈ (updateChannelTopicIfChanged env st c).2 := by
  have h1 : ¬st.targetChannel = false := by simp [hch]
  rcases ht : env.setTopicRes c with e | u <;>
    simp [updateChannelTopicIfChanged, h1, hne, ht]

lemma innerCatch_trace_mem (env : Env) (st : BotState) (e : List Char) :
    ∀ ev ∈ (innerCatch env st e).2.2,
      ev = Event.presenceAttempt 0 ∨ ev = Event.topicWriteAttempt 0 ∨
      ev = Event.topicFailLog ∨ ev = Event.pollErrorLog e := by
  intro ev hev
  unfold innerCatch at hev
  by_cases hl : lowerChars e = connectionClosedLower
  · rw [if_pos hl] at hev
    rcases hp : env.presence 0 with e2 | u
    · rw [hp] at hev
      simp only [List.mem_singleton] at hev
      exact Or.inl hev
    · rw [hp] at hev
      simp only [List.mem_cons] at hev
      rcases hev with hev | hev
      · exact Or.inl hev
      · rcases updateTopic_trace_cases env st 0 with h | h | h <;>
          rw [h] at hev <;> simp at hev
        · exact Or.inr (Or.inl hev)
        · rcases hev with hev | hev
          · exact Or.inr (Or.inl hev)
          · exact Or.inr (Or.inr (Or.inl hev))
  · rw [if_neg hl] at hev
    simp only [List.mem_singleton] at hev
    exact Or.inr (Or.inr (Or.inr hev))

lemma playersPhase_trace_mem (env : Env) (st : BotState) :
    ∀ ev ∈ (playersPhase env st).2.2,
      (∃ n, ev = Event.presenceAttempt n) ∨
      (∃ n, ev = Event.topicWriteAttempt n) ∨
      ev = Event.topicFailLog ∨ ∃ x, ev = Event.pollErrorLog x := by
  intro ev hev
  unfold playersPhase at hev
  rcases hsp : env.sendPlayers with e | resp
  · rw [hsp] at hev
    rcases innerCatch_trace_mem env st e ev hev with h | h | h | h
    · exact Or.inl ⟨0, h⟩
    · exact Or.inr (Or.inl ⟨0, h⟩)
    · exact Or.inr (Or.inr (Or.inl h))
    · exact Or.inr (Or.inr (Or.inr ⟨e, h⟩))
  · rw [hsp] at hev
    dsimp only at hev
    rcases hp : env.presence (parsePlayerCount (resp.getD [])) with e | u
    · rw [hp] at hev
      simp only [List.mem_cons] at hev
      rcases hev with hev | hev
      · exact Or.inl ⟨_, hev⟩
      · rcases innerCatch_trace_mem env st e ev hev with h | h | h | h
        · exact Or.inl ⟨0, h⟩
        · exact Or.inr (Or.inl ⟨0, h⟩)
        · exact Or.inr (Or.inr (Or.inl h))
        · exact Or.inr (Or.inr (Or.inr ⟨e, h⟩))
    · rw [hp] at hev
      simp only [List.mem_cons] at hev
      rcases hev with hev | hev
      · exact Or.inl ⟨_, hev⟩
      · rcases updateTopic_trace_cases env st (parsePlayerCount (resp.getD []))
          with h | h | h <;> rw [h] at hev <;> simp at hev
        · exact Or.inr (Or.inl ⟨_, hev⟩)
        · rcases hev with hev | hev
          · exact Or.inr (Or.inl ⟨_, hev⟩)
          · exact Or.inr (Or.inr (Or.inl hev))

lemma sendParts_trace_mem (env : Env) :
    ∀ ps idx, ∀ ev ∈ (sendParts env idx ps).2, ∃ m, ev = Event.channelSend m := by
  intro ps
  induction ps with
  | nil => intro idx ev hev; simp [sendParts] at hev
  | cons p rest ih =>
    intro idx ev hev
    unfold sendParts at hev
    rcases hc : env.channelSendRes idx with e | u
    · rw [hc] at hev
      simp only [List.mem_singleton] at hev
      exact ⟨p, hev⟩
    · rw [hc] at hev
      simp only [List.mem_cons] at hev
      rcases hev with hev | hev
      · exact ⟨p, hev⟩
      · exact ih (idx + 1) ev hev

lemma finallyTrace_mem (env : Env) :
    ∀ ev ∈ finallyTrace env, ev = Event.rconEndAttempt := by
  intro ev hev
  unfold finallyTrace at hev
  rcases hc : env.connect with e | u <;> rw [hc] at hev <;> simp at hev
  exact hev

lemma pollOnceBody_shape (env : Env) (st : BotState)
    (hconn : env.connect = Except.ok ())
    (hok : (playersPhase env st).1 = Except.ok ()) :
    ∃ rest, (pollOnceBody env st).2.2 =
      Event.connectAttempt :: (playersPhase env st).2.2 ++
        [Event.commandSend] ++ rest ∧
      ∀ ev ∈ rest, ev = Event.emptyLog ∨ ev = Event.noChannelLog ∨
        ∃ m, ev = Event.channelSend m := by
  unfold pollOnceBody
  rw [hconn]
  dsimp only
  rw [hok]
  dsimp only
  rcases hc : env.sendCommand with e2 | resp
  · exact ⟨[], by simp, by simp⟩
  · dsimp only
    by_cases h1 : (trimChars (resp.getD [])).isEmpty
    · rw [if_pos h1]
      exact ⟨[Event.emptyLog], by simp, by simp⟩
    · rw [if_neg h1]
      by_cases h2 : (playersPhase env st).2.1.targetChannel = false
      · rw [if_pos h2]
        exact ⟨[Event.noChannelLog], by simp, by simp⟩
      · rw [if_neg h2]
        by_cases h3 : (resp.getD []).isEmpty ||
            ((resp.getD []).filter (fun c => !isJsWs c)).isEmpty
        · rw [if_pos h3]
          exact ⟨[], by simp, by simp⟩
        · rw [if_neg h3]
          refine ⟨(sendParts env 0
            (splitMessage (trimChars (resp.getD [])) 1900)).2, by simp, ?_⟩
          intro ev hev
          exact Or.inr (Or.inr (sendParts_trace_mem env _ 0 ev hev))

lemma pollOnce_trace_shape (env : Env) (st : BotState) :
    ∃ suffix, (pollOnce env st).2.2 = (pollOnceBody env st).2.2 ++ suffix ∧
      ∀ ev ∈ suffix, ev = Event.benignLog ∨ (∃ x, ev = Event.pollErrorLog x) ∨
        (∃ n, ev = Event.sleepMs n) ∨ ev = Event.rconEndAttempt := by
  unfold pollOnce
  rcases hB : pollOnceBody env st with ⟨r, st1, tr⟩
  cases r with
  | ok u =>
    dsimp only
    refine ⟨finallyTrace env, rfl, ?_⟩
    intro ev hev
    exact Or.inr (Or.inr (Or.inr (finallyTrace_mem env ev hev)))
  | error e =>
    dsimp only
    by_cases hl : lowerChars e = connectionClosedLower
    · rw [if_pos hl]
      refine ⟨[Event.benignLog, Event.sleepMs 60000] ++ finallyTrace env,
        by simp, ?_⟩
      intro ev hev
      rcases List.mem_append.mp hev with hev | hev
      · rcases List.mem_cons.mp hev with hev | hev
        · exact Or.inl hev
        · rcases List.mem_singleton.mp hev with hev
          exact Or.inr (Or.inr (Or.inl ⟨60000, hev⟩))
      · exact Or.inr (Or.inr (Or.inr (finallyTrace_mem env ev hev)))
    · rw [if_neg hl]
      refine ⟨[Event.pollErrorLog e, Event.sleepMs 60000] ++ finallyTrace env,
        by simp, ?_⟩
      intro ev hev
      rcases List.mem_append.mp hev with hev | hev
      · rcases List.mem_cons.mp hev with hev | hev
        · exact Or.inr (Or.inl ⟨e, hev⟩)
        · rcases List.mem_singleton.mp hev with hev
          exact Or.inr (Or.inr (Or.inl ⟨60000, hev⟩))
      · exact Or.inr (Or.inr (Or.inr (finallyTrace_mem env ev hev)))

/-- C3 fails on the code: a players sub-query fault that is NOT the
"connection closed" fault leads to no count-0 presence attempt and no
count-0 topic attempt at all — only the error log — although the cycle
does proceed to issue the primary command. -/
theorem C3_counterexample :
    envPlayersBoom.sendPlayers = Except.error "Error: read timeout".toList ∧
    Event.presenceAttempt 0 ∉ (pollOnce envPlayersBoom ⟨true, -1⟩).2.2 ∧
    Event.topicWriteAttempt 0 ∉ (pollOnce envPlayersBoom ⟨true, -1⟩).2.2 ∧
    Event.commandSend ∈ (pollOnce envPlayersBoom ⟨true, -1⟩).2.2 := by
  refine ⟨rfl, ?_, ?_, ?_⟩ <;> decide

/-- C3 amended: only a players-fault whose lowered rendering is
`error: connection closed` is treated as count 0 — the presence update and
(when the channel is resolved and `lastCount` differs from 0) the topic
write are attempted with count 0 and the cycle proceeds to the primary
command; any other players fault is merely logged as an error, no
presence or count-0 topic attempt is made, and the cycle still proceeds
to the primary command. -/
theorem C3_players_fault_containment (env : Env) (st : BotState)
    (e : List Char) (hconn : env.connect = Except.ok ())
    (hp : env.sendPlayers = Except.error e) :
    (lowerChars e = connectionClosedLower → env.presence 0 = Except.ok () →
      Event.presenceAttempt 0 ∈ (pollOnce env st).2.2 ∧
      (st.targetChannel = true → st.lastCount ≠ 0 →
        Event.topicWriteAttempt 0 ∈ (pollOnce env st).2.2) ∧
      Event.commandSend ∈ (pollOnce env st).2.2) ∧
    (¬lowerChars e = connectionClosedLower →
      Event.pollErrorLog e ∈ (pollOnce env st).2.2 ∧
      (∀ n, Event.presenceAttempt n ∉ (pollOnce env st).2.2) ∧
      Event.commandSend ∈ (pollOnce env st).2.2) := by
  have hph : playersPhase env st = innerCatch env st e := by
    unfold playersPhase
    rw [hp]
  constructor
  · intro hlow hpres
    have hic : innerCatch env st e =
        (Except.ok (), (updateChannelTopicIfChanged env st 0).1,
          Event.presenceAttempt 0 :: (updateChannelTopicIfChanged env st 0).2) := by
      unfold innerCatch
      rw [if_pos hlow, hpres]
    have hok : (playersPhase env st).1 = Except.ok () := by rw [hph, hic]
    obtain ⟨rest, hbody, hrest⟩ := pollOnceBody_shape env st hconn hok
    obtain ⟨suffix, hpoll, hsuf⟩ := pollOnce_trace_shape env st
    rw [hpoll, hbody, hph, hic]
    refine ⟨by simp, ?_, by simp⟩
    intro hch hlc
    have hne : ¬((0 : Nat) : Int) = st.lastCount := by
      intro h0
      exact hlc (by exact_mod_cast h0.symm)
    have hmem := updateTopic_write_mem env st 0 hch hne
    simp [hmem]
  · intro hlow
    have hic : innerCatch env st e =
        (Except.ok (), st, [Event.pollErrorLog e]) := by
      unfold innerCatch
      rw [if_neg hlow]
    have hok : (playersPhase env st).1 = Except.ok () := by rw [hph, hic]
    obtain ⟨rest, hbody, hrest⟩ := pollOnceBody_shape env st hconn hok
    obtain ⟨suffix, hpoll, hsuf⟩ := pollOnce_trace_shape env st
    rw [hpoll, hbody, hph, hic]
    refine ⟨by simp, ?_, by simp⟩
    intro n hn
    rcases List.mem_append.mp hn with hn | hn
    · rcases List.mem_append.mp hn with hn | hn
      · rcases List.mem_append.mp hn with hn | hn
        · rcases List.mem_cons.mp hn with hn | hn
          · exact Event.noConfusion hn
          · rcases List.mem_singleton.mp hn with hn
            exact Event.noConfusion hn
        · rcases List.mem_singleton.mp hn with hn
          exact Event.noConfusion hn
      · rcases hrest _ hn with h | h | ⟨m, h⟩ <;> exact Event.noConfusion h
    · rcases hsuf _ hn with h | ⟨x, h⟩ | ⟨k, h⟩ | h <;> exact Event.noConfusion h

/-- Witness for the amended C3 at the benign-fault environment. -/
theorem C3_players_fault_containment_witness :
    envQuiet.connect = Except.ok () ∧
    envQuiet.sendPlayers = Except.error "Error: Connection closed".toList ∧
    ((lowerChars "Error: Connection closed".toList = connectionClosedLower →
        envQuiet.presence 0 = Except.ok () →
        Event.presenceAttempt 0 ∈ (pollOnce envQuiet ⟨true, -1⟩).2.2 ∧
        ((⟨true, -1⟩ : BotState).targetChannel = true →
          (⟨true, -1⟩ : BotState).lastCount ≠ 0 →
          Event.topicWriteAttempt 0 ∈ (pollOnce envQuiet ⟨true, -1⟩).2.2) ∧
        Event.commandSend ∈ (pollOnce envQuiet ⟨true, -1⟩).2.2) ∧
      (¬lowerChars "Error: Connection closed".toList = connectionClosedLower →
        Event.pollErrorLog "Error: Connection closed".toList ∈
          (pollOnce envQuiet ⟨true, -1⟩).2.2 ∧
        (∀ n, Event.presenceAttempt n ∉ (pollOnce envQuiet ⟨true, -1⟩).2.2) ∧
        Event.commandSend ∈ (pollOnce envQuiet ⟨true, -1⟩).2.2)) :=
  ⟨rfl, rfl, C3_players_fault_containment envQuiet ⟨true, -1⟩ _ rfl rfl⟩

/-- C7: when the preceding phases complete and the primary command returns
an empty or whitespace-only Raw Response, the cycle returns successfully
with zero channel sends and performs no cooldown sleep. -/
theorem C7_quiet_cycle (env : Env) (st : BotState) (resp : Option (List Char))
    (hconn : env.connect = Except.ok ())
    (hok : (playersPhase env st).1 = Except.ok ())
    (hcmd : env.sendCommand = Except.ok resp)
    (htrim : trimChars (resp.getD []) = []) :
    (pollOnce env st).1 = Except.ok () ∧
    (∀ m, Event.channelSend m ∉ (pollOnce env st).2.2) ∧
    (∀ n, Event.sleepMs n ∉ (pollOnce env st).2.2) := by
  have hbody : pollOnceBody env st =
      (Except.ok (), (playersPhase env st).2.1,
        Event.connectAttempt :: (playersPhase env st).2.2 ++
          [Event.commandSend, Event.emptyLog]) := by
    unfold pollOnceBody
    rw [hconn]
    dsimp only
    rw [hok]
    dsimp only
    rw [hcmd]
    dsimp only
    rw [if_pos (by rw [htrim]; rfl)]
  have hpoll : pollOnce env st =
      (Except.ok (), (playersPhase env st).2.1,
        (Event.connectAttempt :: (playersPhase env st).2.2 ++
          [Event.commandSend, Event.emptyLog]) ++ finallyTrace env) := by
    unfold pollOnce
    rw [hbody]
  rw [hpoll]
  refine ⟨rfl, ?_, ?_⟩
  · intro m hm
    rcases List.mem_append.mp hm with hm | hm
    · rcases List.mem_append.mp hm with hm | hm
      · rcases List.mem_cons.mp hm with hm | hm
        · exact Event.noConfusion hm
        · rcases playersPhase_trace_mem env st _ hm with
            ⟨k, h⟩ | ⟨k, h⟩ | h | ⟨x, h⟩ <;> exact Event.noConfusion h
      · rcases List.mem_cons.mp hm with hm | hm
        · exact Event.noConfusion hm
        · rcases List.mem_singleton.mp hm with hm
          exact Event.noConfusion hm
    · exact Event.noConfusion (finallyTrace_mem env _ hm)
  · intro n hn
    rcases List.mem_append.mp hn with hn | hn
    · rcases List.mem_append.mp hn with hn | hn
      · rcases List.mem_cons.mp hn with hn | hn
        · exact Event.noConfusion hn
        · rcases playersPhase_trace_mem env st _ hn with
            ⟨k, h⟩ | ⟨k, h⟩ | h | ⟨x, h⟩ <;> exact Event.noConfusion h
      · rcases List.mem_cons.mp hn with hn | hn
        · exact Event.noConfusion hn
        · rcases List.mem_singleton.mp hn with hn
          exact Event.noConfusion hn
    · exact Event.noConfusion (finallyTrace_mem env _ hn)

/-- Witness for C7: benign players fault, whitespace-only Raw Response. -/
theorem C7_quiet_cycle_witness :
    envQuiet.connect = Except.ok () ∧
    (playersPhase envQuiet ⟨true, -1⟩).1 = Except.ok () ∧
    envQuiet.sendCommand = Except.ok (some "   \n  ".toList) ∧
    trimChars ((some "   \n  ".toList).getD []) = [] ∧
    ((pollOnce envQuiet ⟨true, -1⟩).1 = Except.ok () ∧
      (∀ m, Event.channelSend m ∉ (pollOnce envQuiet ⟨true, -1⟩).2.2) ∧
      (∀ n, Event.sleepMs n ∉ (pollOnce envQuiet ⟨true, -1⟩).2.2)) :=
  ⟨rfl, by decide, rfl, by decide,
    C7_quiet_cycle envQuiet ⟨true, -1⟩ (some "   \n  ".toList) rfl (by decide)
      rfl (by decide)⟩

lemma digitChar_isDigit : ∀ m, m < 10 → isDigitChar (Nat.digitChar m) = true := by
  decide

lemma digitChar_toNat : ∀ m, m < 10 → (Nat.digitChar m).toNat - 48 = m := by
  decide

lemma natDigitsAux_append (n : Nat) :
    ∀ acc, natDigitsAux n acc = natDigitsAux n [] ++ acc := by
  induction n using Nat.strong_induction_on with
  | _ n ih =>
    intro acc
    by_cases h : n = 0
    · subst h
      simp [natDigitsAux]
    · have hlt : n / 10 < n := Nat.div_lt_self (Nat.pos_of_ne_zero h) (by decide)
      have hstep : ∀ a, natDigitsAux n a =
          natDigitsAux (n / 10) (Nat.digitChar (n % 10) :: a) := by
        intro a
        rw [natDigitsAux]
        simp only [dif_neg h]
      rw [hstep acc, hstep [], ih _ hlt (Nat.digitChar (n % 10) :: acc),
        ih _ hlt [Nat.digitChar (n % 10)]]
      simp

lemma digitsToNat_append_digit (xs : List Char) (d : Char) :
    digitsToNat (xs ++ [d]) = 10 * digitsToNat xs + (d.toNat - 48) := by
  simp [digitsToNat, List.foldl_append]

lemma digitsToNat_natDigitsAux (n : Nat) :
    digitsToNat (natDigitsAux n []) = n := by
  induction n using Nat.strong_induction_on with
  | _ n ih =>
    by_cases h : n = 0
    · subst h
      rw [natDigitsAux]
      simp [digitsToNat]
    · have hlt : n / 10 < n := Nat.div_lt_self (Nat.pos_of_ne_zero h) (by decide)
      rw [natDigitsAux]
      simp only [dif_neg h]
      rw [natDigitsAux_append, digitsToNat_append_digit, ih _ hlt,
        digitChar_toNat _ (Nat.mod_lt _ (by decide))]
      omega

lemma digitsToNat_natDigits (n : Nat) : digitsToNat (natDigits n) = n := by
  by_cases h : n = 0
  · subst h
    decide
  · rw [natDigits, if_neg h]
    exact digitsToNat_natDigitsAux n

lemma natDigits_all_digits (n : Nat) :
    ∀ c ∈ natDigits n, isDigitChar c = true := by
  have haux : ∀ m acc, (∀ c ∈ acc, isDigitChar c = true) →
      ∀ c ∈ natDigitsAux m acc, isDigitChar c = true := by
    intro m
    induction m using Nat.strong_induction_on with
    | _ m ih =>
      intro acc hacc c hc
      by_cases hm : m = 0
      · subst hm
        rw [natDigitsAux] at hc
        simp at hc
        exact hacc c hc
      · rw [natDigitsAux] at hc
        simp only [dif_neg hm] at hc
        refine ih _ (Nat.div_lt_self (Nat.pos_of_ne_zero hm) (by decide)) _
          ?_ c hc
        intro x hx
        rcases List.mem_cons.mp hx with hx | hx
        · subst hx
          exact digitChar_isDigit _ (Nat.mod_lt _ (by decide))
        · exact hacc x hx
  by_cases h : n = 0
  · subst h
    decide
  · rw [natDigits, if_neg h]
    exact haux n [] (by simp)

lemma natDigits_ne_nil (n : Nat) : natDigits n ≠ [] := by
  by_cases h : n = 0
  · subst h
    decide
  · rw [natDigits, if_neg h, natDigitsAux]
    simp only [dif_neg h]
    rw [natDigitsAux_append]
    simp

lemma dropWhile_all {α : Type} (p : α → Bool) :
    ∀ l : List α, (∀ x ∈ l, p x = true) → l.dropWhile p = [] := by
  intro l
  induction l with
  | nil => intro _; rfl
  | cons x xt ih =>
    intro h
    simp only [List.dropWhile_cons, h x (List.mem_cons_self x xt), if_true]
    exact ih (fun y hy => h y (List.mem_cons_of_mem x hy))

lemma dropWhile_append_all {α : Type} (p : α → Bool) :
    ∀ xs : List α, (∀ x ∈ xs, p x = true) →
      ∀ l : List α, (xs ++ l).dropWhile p = l.dropWhile p := by
  intro xs
  induction xs with
  | nil => intro _ l; simp
  | cons x xt ih =>
    intro h l
    simp only [List.cons_append, List.dropWhile_cons,
      h x (List.mem_cons_self x xt), if_true]
    exact ih (fun y hy => h y (List.mem_cons_of_mem x hy)) l

lemma dropWhile_cons_neg {α : Type} (p : α → Bool) (x : α) (l : List α)
    (h : p x = false) : (x :: l).dropWhile p = x :: l := by
  simp [List.dropWhile_cons, h]

lemma dropWhile_append_cons {α : Type} (p : α → Bool) (xs : List α)
    (h : ∀ x ∈ xs, p x = true) (y : α) (hy : p y = false) (l : List α) :
    (xs ++ y :: l).dropWhile p = y :: l := by
  rw [dropWhile_append_all p xs h, dropWhile_cons_neg p y l hy]

lemma takeWhile_append_all {α : Type} (p : α → Bool) :
    ∀ xs : List α, (∀ x ∈ xs, p x = true) →
      ∀ (y : α) (l : List α), p y = false →
        (xs ++ y :: l).takeWhile p = xs := by
  intro xs
  induction xs with
  | nil =>
    intro _ y l hy
    simp [List.takeWhile_cons, hy]
  | cons x xt ih =>
    intro h y l hy
    simp only [List.cons_append, List.takeWhile_cons,
      h x (List.mem_cons_self x xt), if_true]
    rw [ih (fun z hz => h z (List.mem_cons_of_mem x hz)) y l hy]

lemma isJsWs_toLower {c : Char} (h : isJsWs c = true) : c.toLower = c := by
  have hm : c ∈ jsWhitespace := by simpa [isJsWs] using h
  fin_cases hm <;> decide

lemma not_ws_of_toLower {c a : Char} (h : c.toLower = a)
    (ha : isJsWs a = false) : isJsWs c = false := by
  cases hw : isJsWs c
  · rfl
  · have hc := isJsWs_toLower hw
    rw [hc] at h
    subst h
    rw [hw] at ha
    exact ha

lemma no_p_of_ws {c : Char} (h : isJsWs c = true) : ¬c.toLower = 'p' := by
  intro hp
  have := not_ws_of_toLower hp (by decide)
  rw [h] at this
  exact Bool.noConfusion this

lemma matchLit_append (lit : List Char) :
    ∀ cs rest, lowerChars cs = lit → matchLit lit (cs ++ rest) = some rest := by
  induction lit with
  | nil =>
    intro cs rest h
    have hnil : cs = [] := by
      cases cs with
      | nil => rfl
      | cons a b => simp [lowerChars] at h
    subst hnil
    rfl
  | cons a as ih =>
    intro cs rest h
    cases cs with
    | nil => simp [lowerChars] at h
    | cons c ct =>
      simp only [lowerChars, List.map_cons, List.cons.injEq] at h
      obtain ⟨h1, h2⟩ := h
      simp only [List.cons_append, matchLit, h1, if_pos]
      exact ih ct rest (by simpa [lowerChars] using h2)

lemma matchAfterPlayer_spec (wc : Char) (wt csC w2 : List Char) (N : Nat)
    (tail : List Char) (hwc : isJsWs wc = true)
    (hwt : ∀ c ∈ wt, isJsWs c = true)
    (hC : lowerChars csC = connectedLits)
    (hw2 : ∀ c ∈ w2, isJsWs c = true) :
    matchAfterPlayer (wc :: (wt ++ (csC ++ (w2 ++
      ('(' :: (natDigits N ++ (')' :: tail))))))) = some N := by
  cases csC with
  | nil => simp [lowerChars, connectedLits] at hC
  | cons cc ct =>
    have hcc : cc.toLower = 'c' := by
      simp only [lowerChars, List.map_cons, connectedLits,
        List.cons.injEq] at hC
      exact hC.1
    have hccws : isJsWs cc = false := not_ws_of_toLower hcc (by decide)
    obtain ⟨d, ds, hd⟩ := List.exists_cons_of_ne_nil (natDigits_ne_nil N)
    have hdd : isDigitChar d = true :=
      natDigits_all_digits N d (by rw [hd]; exact List.mem_cons_self d ds)
    have hds : ∀ c ∈ ds, isDigitChar c = true := fun c hc =>
      natDigits_all_digits N c (by rw [hd]; exact List.mem_cons_of_mem d hc)
    have h1 : List.dropWhile isJsWs (wt ++ (cc :: (ct ++ (w2 ++
        ('(' :: (d :: (ds ++ (')' :: tail)))))))) =
        cc :: (ct ++ (w2 ++ ('(' :: (d :: (ds ++ (')' :: tail)))))) := by
      rw [dropWhile_append_all isJsWs wt hwt]
      exact dropWhile_cons_neg isJsWs cc _ hccws
    have h2 := matchLit_append connectedLits (cc :: ct)
      (w2 ++ ('(' :: (d :: (ds ++ (')' :: tail))))) hC
    simp only [List.cons_append] at h2
    have h3 : List.dropWhile isJsWs (w2 ++ ('(' :: (d :: (ds ++
        (')' :: tail))))) = '(' :: (d :: (ds ++ (')' :: tail))) :=
      dropWhile_append_cons isJsWs w2 hw2 '(' (by decide) _
    have h4 : List.dropWhile isDigitChar (ds ++ (')' :: tail)) =
        ')' :: tail :=
      dropWhile_append_cons isDigitChar ds hds ')' (by decide) tail
    have h5 : List.takeWhile isDigitChar (ds ++ (')' :: tail)) = ds :=
      takeWhile_append_all isDigitChar ds hds ')' tail (by decide)
    rw [hd]
    simp only [List.cons_append]
    unfold matchAfterPlayer
    simp only [hwc, if_true, h1, h2, h3, hdd, h4, h5]
    rw [show d :: ds = natDigits N from hd.symm, digitsToNat_natDigits]

lemma matchHeaderAt_header (csP : List Char) (csS wc : Char)
    (wt csC w2 : List Char) (N : Nat) (tail : List Char)
    (hP : lowerChars csP = playerLits) (hS : csS.toLower = 's')
    (hwc : isJsWs wc = true) (hwt : ∀ c ∈ wt, isJsWs c = true)
    (hC : lowerChars csC = connectedLits)
    (hw2 : ∀ c ∈ w2, isJsWs c = true) :
    matchHeaderAt (csP ++ (csS :: (wc :: (wt ++ (csC ++ (w2 ++
      ('(' :: (natDigits N ++ (')' :: tail))))))))) = some N := by
  have hml := matchLit_append playerLits csP
    (csS :: (wc :: (wt ++ (csC ++ (w2 ++
      ('(' :: (natDigits N ++ (')' :: tail)))))))) hP
  have hap := matchAfterPlayer_spec wc wt csC w2 N tail hwc hwt hC hw2
  unfold matchHeaderAt
  rw [hml]
  dsimp only
  rw [if_pos hS, hap]

lemma matchHeaderAt_none_of_head (c : Char) (cs : List Char)
    (h : ¬c.toLower = 'p') : matchHeaderAt (c :: cs) = none := by
  unfold matchHeaderAt
  simp [playerLits, matchLit, h]

lemma findHeaderCount_no_p (pre : List Char)
    (h : ∀ c ∈ pre, ¬c.toLower = 'p') :
    ∀ rest, findHeaderCount (pre ++ rest) = findHeaderCount rest := by
  induction pre with
  | nil => intro rest; rfl
  | cons c ct ih =>
    intro rest
    have hnone := matchHeaderAt_none_of_head c (ct ++ rest)
      (h c (List.mem_cons_self c ct))
    rw [List.cons_append, findHeaderCount, hnone]
    exact ih (fun x hx => h x (List.mem_cons_of_mem c hx)) rest

lemma findHeaderCount_cons_some {c : Char} {cs : List Char} {n : Nat}
    (h : matchHeaderAt (c :: cs) = some n) :
    findHeaderCount (c :: cs) = some n := by
  rw [findHeaderCount, h]

/-- C5: for every text made of a prefix containing no `p`/`P`, a header of
the form `Players connected (N)` (letters in any case, `\s+`/`\s*`
whitespace as allowed by the pattern) and an arbitrary suffix of further
lines after the `):`, `parsePlayerCount` returns exactly the first
captured integer N. -/
theorem C5_parsePlayerCount_header (pre csP : List Char) (csS : Char)
    (w1 csC w2 suf : List Char) (N : Nat)
    (hpre : ∀ c ∈ pre, ¬c.toLower = 'p')
    (hP : lowerChars csP = playerLits)
    (hS : csS.toLower = 's')
    (hw1ne : w1 ≠ []) (hw1 : ∀ c ∈ w1, isJsWs c = true)
    (hC : lowerChars csC = connectedLits)
    (hw2 : ∀ c ∈ w2, isJsWs c = true) :
    parsePlayerCount (pre ++ (csP ++ (csS :: (w1 ++ (csC ++ (w2 ++
      ('(' :: (natDigits N ++ (')' :: (':' :: suf)))))))))) = N := by
  obtain ⟨wc, wt, hw⟩ := List.exists_cons_of_ne_nil hw1ne
  subst hw
  have hPne : csP ≠ [] := by
    intro hnil
    rw [hnil] at hP
    simp [lowerChars, playerLits] at hP
  obtain ⟨q, qt, hq⟩ := List.exists_cons_of_ne_nil hPne
  subst hq
  have hmh := matchHeaderAt_header (q :: qt) csS wc wt csC w2 N
    (':' :: suf) hP hS (hw1 wc (List.mem_cons_self wc wt))
    (fun c hc => hw1 c (List.mem_cons_of_mem wc hc)) hC hw2
  simp only [List.cons_append] at hmh
  have hf := findHeaderCount_cons_some hmh
  unfold parsePlayerCount
  rw [findHeaderCount_no_p pre hpre]
  simp only [List.cons_append]
  rw [hf]

/-- Witness for C5: `"RCON: PlAyErS Connected(42):\nAlice\nBob"`. -/
theorem C5_parsePlayerCount_header_witness :
    (∀ c ∈ "RCON: ".toList, ¬c.toLower = 'p') ∧
    lowerChars "PlAyEr".toList = playerLits ∧
    'S'.toLower = 's' ∧
    ([' '] : List Char) ≠ [] ∧
    (∀ c ∈ ([' '] : List Char), isJsWs c = true) ∧
    lowerChars "Connected".toList = connectedLits ∧
    (∀ c ∈ ([] : List Char), isJsWs c = true) ∧
    parsePlayerCount ("RCON: ".toList ++ ("PlAyEr".toList ++ ('S' ::
      ([' '] ++ ("Connected".toList ++ ([] ++
        ('(' :: (natDigits 42 ++ (')' :: (':' :: "\nAlice\nBob".toList)))))))))) = 42 :=
  ⟨by decide, by decide, by decide, by decide, by decide, by decide, by decide,
    C5_parsePlayerCount_header "RCON: ".toList "PlAyEr".toList 'S' [' ']
      "Connected".toList [] "\nAlice\nBob".toList 42 (by decide) (by decide)
      (by decide) (by decide) (by decide) (by decide) (by decide)⟩

lemma splitLinesAux_nl (rest acc : List Char) :
    splitLinesAux ('\n' :: rest) acc = acc.reverse :: splitLinesAux rest [] :=
  rfl

lemma splitLinesAux_crlf (rest acc : List Char) :
    splitLinesAux ('\r' :: '\n' :: rest) acc =
      acc.reverse :: splitLinesAux rest [] := rfl

lemma splitLinesAux_cr_nil (acc : List Char) :
    splitLinesAux ['\r'] acc = [('\r' :: acc).reverse] := rfl

lemma splitLinesAux_cr_other (c2 : Char) (rest acc : List Char)
    (h : ¬c2 = '\n') :
    splitLinesAux ('\r' :: c2 :: rest) acc =
      splitLinesAux (c2 :: rest) ('\r' :: acc) := by
  simp [splitLinesAux, h]

lemma splitLinesAux_other (c : Char) (rest acc : List Char)
    (h1 : ¬c = '\n') (h2 : ¬c = '\r') :
    splitLinesAux (c :: rest) acc = splitLinesAux rest (c :: acc) := by
  rcases rest with _ | ⟨c2, rest2⟩
  · simp [splitLinesAux, h1, h2]
  · simp [splitLinesAux, h1, h2]

lemma splitLinesAux_line :
    ∀ l : List Char, (∀ c ∈ l, ¬c = '\n' ∧ ¬c = '\r') →
      ∀ rest acc, splitLinesAux (l ++ rest) acc =
        splitLinesAux rest (l.reverse ++ acc) := by
  intro l
  induction l with
  | nil => intro _ rest acc; simp
  | cons c ct ih =>
    intro hl rest acc
    obtain ⟨h1, h2⟩ := hl c (List.mem_cons_self c ct)
    rw [List.cons_append, splitLinesAux_other c _ _ h1 h2,
      ih (fun x hx => hl x (List.mem_cons_of_mem c hx)) rest (c :: acc)]
    simp

lemma splitLinesAux_joinLines :
    ∀ lines : List (List Char), lines ≠ [] →
      (∀ l ∈ lines, ∀ c ∈ l, ¬c = '\n' ∧ ¬c = '\r') →
      splitLinesAux (joinLines lines) [] = lines := by
  intro lines
  induction lines with
  | nil => intro h _; exact absurd rfl h
  | cons l ls ih =>
    intro _ hl
    cases ls with
    | nil =>
      have h := splitLinesAux_line l (hl l (List.mem_cons_self l [])) [] []
      rw [List.append_nil] at h
      rw [joinLines, h, splitLinesAux]
      simp
    | cons l2 ls2 =>
      rw [joinLines,
        splitLinesAux_line l (hl l (List.mem_cons_self l _))
          ('\n' :: joinLines (l2 :: ls2)) [],
        splitLinesAux_nl,
        ih (by simp) (fun x hx => hl x (List.mem_cons_of_mem l hx))]
      simp

lemma bang_isEmpty_of_ne_nil {α : Type} (l : List α) (h : l ≠ []) :
    (!l.isEmpty) = true := by
  cases l with
  | nil => exact absurd rfl h
  | cons a b => rfl

lemma parsePlayerCount_fallback_lines (first : List Char)
    (rest : List (List Char))
    (hfc : ∀ c ∈ first, ¬c = '\n' ∧ ¬c = '\r')
    (htf : trimChars first ≠ [])
    (hrest : ∀ l ∈ rest, (∀ c ∈ l, ¬c = '\n' ∧ ¬c = '\r') ∧ trimChars l ≠ [])
    (hnone : findHeaderCount (joinLines (first :: rest)) = none) :
    parsePlayerCount (joinLines (first :: rest)) =
      if containsSeq playerLits (lowerChars (trimChars first))
      then rest.length else rest.length + 1 := by
  have hsplit : splitLinesAux (joinLines (first :: rest)) [] = first :: rest :=
    splitLinesAux_joinLines (first :: rest) (by simp)
      (by
        intro l hlm
        rcases List.mem_cons.mp hlm with hlm | hlm
        · subst hlm; exact hfc
        · exact (hrest l hlm).1)
  have hfil : ((first :: rest).map trimChars).filter (fun l => !l.isEmpty) =
      (first :: rest).map trimChars := by
    rw [List.filter_eq_self]
    intro a ha
    rcases List.mem_map.mp ha with ⟨l, hlm, rfl⟩
    rcases List.mem_cons.mp hlm with hlm | hlm
    · subst hlm
      exact bang_isEmpty_of_ne_nil _ htf
    · exact bang_isEmpty_of_ne_nil _ (hrest l hlm).2
  unfold parsePlayerCount
  rw [hnone]
  dsimp only
  rw [hsplit, hfil]
  simp only [List.map_cons]
  by_cases hcb : containsSeq playerLits (lowerChars (trimChars first)) = true
  · rw [if_pos hcb]
    simp [hcb]
  · rw [if_neg hcb]
    simp [hcb]

lemma splitLinesAux_ws_lines :
    ∀ t : List Char, (∀ c ∈ t, isJsWs c = true) →
      ∀ acc : List Char, (∀ c ∈ acc, isJsWs c = true) →
        ∀ l ∈ splitLinesAux t acc, ∀ c ∈ l, isJsWs c = true := by
  intro t
  induction t with
  | nil =>
    intro _ acc hacc l hl c hc
    rw [splitLinesAux] at hl
    simp at hl
    subst hl
    exact hacc c (List.mem_reverse.mp hc)
  | cons ch rest ih =>
    intro ht acc hacc l hl c hc
    have hch : isJsWs ch = true := ht ch (List.mem_cons_self ch rest)
    have htr : ∀ x ∈ rest, isJsWs x = true := fun x hx =>
      ht x (List.mem_cons_of_mem ch hx)
    by_cases h1 : ch = '\n'
    · subst h1
      rw [splitLinesAux_nl] at hl
      rcases List.mem_cons.mp hl with hl | hl
      · subst hl
        exact hacc c (List.mem_reverse.mp hc)
      · exact ih htr [] (by simp) l hl c hc
    · by_cases h2 : ch = '\r'
      · subst h2
        rcases rest with _ | ⟨c2, rest2⟩
        · rw [splitLinesAux_cr_nil] at hl
          simp only [List.mem_singleton] at hl
          subst hl
          rcases List.mem_cons.mp (List.mem_reverse.mp hc) with hc2 | hc2
          · subst hc2; decide
          · exact hacc c hc2
        · by_cases h3 : c2 = '\n'
          · subst h3
            rw [splitLinesAux_crlf] at hl
            rcases List.mem_cons.mp hl with hl | hl
            · subst hl
              exact hacc c (List.mem_reverse.mp hc)
            · have hall := ih htr [] (by simp) l
              rw [splitLinesAux_nl] at hall
              exact hall (List.mem_cons_of_mem _ hl) c hc
          · rw [splitLinesAux_cr_other c2 rest2 acc h3] at hl
            refine ih htr ('\r' :: acc) ?_ l hl c hc
            intro x hx
            rcases List.mem_cons.mp hx with hx | hx
            · subst hx; decide
            · exact hacc x hx
      · rw [splitLinesAux_other ch rest acc h1 h2] at hl
        refine ih htr (ch :: acc) ?_ l hl c hc
        intro x hx
        rcases List.mem_cons.mp hx with hx | hx
        · subst hx; exact hch
        · exact hacc x hx

lemma trimChars_ws (l : List Char) (h : ∀ c ∈ l, isJsWs c = true) :
    trimChars l = [] := by
  unfold trimChars
  rw [dropWhile_all isJsWs l h]
  simp

/-- C6: on header-less input, `parsePlayerCount` counts the non-empty
trimmed lines, excluding a first line that contains "player"
(case-insensitively): (a) a "player" first line followed by k non-empty
lines yields k; (b) k non-empty lines with no "player" first line yield k;
(c) whitespace-only input (zero non-empty lines) yields 0. -/
theorem C6_parsePlayerCount_fallback :
    (∀ (first : List Char) (rest : List (List Char)),
      (∀ c ∈ first, ¬c = '\n' ∧ ¬c = '\r') → trimChars first ≠ [] →
      (∀ l ∈ rest, (∀ c ∈ l, ¬c = '\n' ∧ ¬c = '\r') ∧ trimChars l ≠ []) →
      findHeaderCount (joinLines (first :: rest)) = none →
      containsSeq playerLits (lowerChars (trimChars first)) = true →
      parsePlayerCount (joinLines (first :: rest)) = rest.length) ∧
    (∀ (first : List Char) (rest : List (List Char)),
      (∀ c ∈ first, ¬c = '\n' ∧ ¬c = '\r') → trimChars first ≠ [] →
      (∀ l ∈ rest, (∀ c ∈ l, ¬c = '\n' ∧ ¬c = '\r') ∧ trimChars l ≠ []) →
      findHeaderCount (joinLines (first :: rest)) = none →
      containsSeq playerLits (lowerChars (trimChars first)) = false →
      parsePlayerCount (joinLines (first :: rest)) = rest.length + 1) ∧
    (∀ t : List Char, (∀ c ∈ t, isJsWs c = true) → parsePlayerCount t = 0) := by
  refine ⟨?_, ?_, ?_⟩
  · intro first rest hfc htf hrest hnone hcb
    rw [parsePlayerCount_fallback_lines first rest hfc htf hrest hnone,
      if_pos hcb]
  · intro first rest hfc htf hrest hnone hcb
    rw [parsePlayerCount_fallback_lines first rest hfc htf hrest hnone,
      if_neg (by simp [hcb])]
  · intro t ht
    have hnone : findHeaderCount t = none := by
      have h := findHeaderCount_no_p t (fun c hc => no_p_of_ws (ht c hc)) []
      rwa [List.append_nil] at h
    have hws := splitLinesAux_ws_lines t ht [] (by simp)
    have hfil : ((splitLinesAux t []).map trimChars).filter
        (fun l => !l.isEmpty) = [] := by
      rw [List.filter_eq_nil_iff]
      intro a ha
      rcases List.mem_map.mp ha with ⟨l, hlm, rfl⟩
      rw [trimChars_ws l (hws l hlm)]
      simp
    unfold parsePlayerCount
    rw [hnone]
    dsimp only
    rw [hfil]

/-- Witness for C6: a "players:" header line over two names, two plain
names, and a whitespace-only response. -/
theorem C6_parsePlayerCount_fallback_witness :
    parsePlayerCount (joinLines
      ["players:".toList, "Alice".toList, "Bob".toList]) = 2 ∧
    parsePlayerCount (joinLines ["Alice".toList, "Bob".toList]) = 2 ∧
    parsePlayerCount "  \n \t ".toList = 0 :=
  ⟨C6_parsePlayerCount_fallback.1 "players:".toList
      ["Alice".toList, "Bob".toList] (by decide) (by decide) (by decide)
      (by decide) (by decide),
    C6_parsePlayerCount_fallback.2.1 "Alice".toList ["Bob".toList]
      (by decide) (by decide) (by decide) (by decide) (by decide),
    C6_parsePlayerCount_fallback.2.2 "  \n \t ".toList (by decide)⟩
